import Mathlib

/-!
# Verification of the sproket replica-aware download engine

Shallow embedding, in Lean 4, of the core data model and algorithms of the
sproket ESGF download tool, together with proofs of the behavioural
properties stated in its specification.

The embedding follows the Go sources:

* `Doc`, `GetSum`, `GetSumType`, `SearchURLs`, `performSearch`, `buildQ`
  come from the search-client file (`search.go`, newest revision);
* `Get` comes from the streaming HTTP getter (`get.go`, newest revision);
* `Facet` pairing comes from `facet.go`;
* `Init` field forcing, the replica resolver (`getBySearch`) and the
  download worker skip test (`getData` / `check` / `getHasher`) come from
  `cmd/sproket/main.go` (newest revision, v0.2.14).

Go maps are embedded as association lists with overwrite-on-insert
semantics (one deterministic linearization of the unordered Go map);
fallible operations return `Option`/`Except`, and a Go runtime panic
(index out of range) is modelled as `Option.none`.  The HTTP transport
and the cryptographic hash functions are external collaborators and are
passed in as explicit parameters.
-/

namespace Sproket

/-- One index record, from `type Doc struct` in `search.go`:
url list, `instance_id`, `data_node`, multivalued `checksum` and
`checksum_type`, and the extracted HTTP download URL. -/
structure Doc where
  urls : List String
  instanceID : String
  dataNode : String
  sum : List String
  sumType : List String
  httpURL : String
  deriving Repr, DecidableEq

/-- `func (d *Doc) GetSum() string`: returns `""` unless the `checksum`
field holds exactly one value, otherwise returns that value.
`none` models a Go index-out-of-range panic (which this guard rules out). -/
def Doc.GetSum (d : Doc) : Option String :=
  if d.sum.length ≠ 1 then some "" else d.sum[0]?

/-- `func (d *Doc) GetSumType() string`: the guard tests `len(d.Sum) != 1`
(the checksum *value* list), then returns `d.SumType[0]`.
`none` models a Go index-out-of-range panic. -/
def Doc.GetSumType (d : Doc) : Option String :=
  if d.sum.length ≠ 1 then some "" else d.sumType[0]?

/-! ## Association-list embedding of Go maps

A Go `map[string]V` is embedded as an association list with unique keys;
`insertA` is Go map assignment (`m[k] = v`, overwrite or append) and
`lookupA` is Go map read (`v, ok := m[k]`, missing key gives `none`). -/

/-- Go map assignment `m[k] = v`: overwrite the entry for `k` if present,
otherwise add a new entry. -/
def insertA {α : Type} : List (String × α) → String → α → List (String × α)
  | [], k, v => [(k, v)]
  | kv :: rest, k, v =>
    if kv.1 = k then (k, v) :: rest else kv :: insertA rest k v

/-- Go map read `m[k]`: the value stored under `k`, if any. -/
def lookupA {α : Type} : List (String × α) → String → Option α
  | [], _ => none
  | kv :: rest, k => if kv.1 = k then some kv.2 else lookupA rest k

/-! ## Query builder (`buildQ`, search.go) -/

/-- `func (s *Search) buildQ() string`: an empty field mapping gives the
match-everything query; otherwise one `key:(value)` clause per field is
accumulated and the clauses are joined with `" AND "`. -/
def buildQ (fields : List (String × String)) : String :=
  if fields.length = 0 then "*:*"
  else
    let ms := fields.foldl
      (fun acc kv => acc ++ [kv.1 ++ ":(" ++ kv.2 ++ ")"]) []
    String.intercalate " AND " ms

/-! ## HTTP getter (`Search.Get`, get.go)

The transport is an external collaborator: its outcome (a transport
error, or a status line plus body bytes and advertised content length)
is a parameter of the embedding. -/

/-- Outcome of one HTTP round trip, as seen by `Search.Get`. -/
inductive HTTPResult where
  | transportError (msg : String)
  | response (status : Nat) (statusText : String)
      (body : List Nat) (contentLength : Int)
  deriving Repr, DecidableEq

/-- `func (s *Search) Get(inURL string, dest io.Writer) error`:
fails on a transport error, on a non-200 status (with the status text as
the error), or when the advertised content length (if not `-1`) does not
match the number of bytes written; otherwise yields the body bytes. -/
def Get (resp : HTTPResult) : Except String (List Nat) :=
  match resp with
  | .transportError msg => .error msg
  | .response status statusText body contentLength =>
    if status ≠ 200 then .error statusText
    else if contentLength ≠ -1 ∧ (body.length : Int) ≠ contentLength then
      .error "response size mismatch"
    else .ok body

/-! ## Search client (`SearchURLs`, search.go)

`performSearch` URL-encodes the parameters and delegates to `Get`; only
the `Get` outcome is observable to `SearchURLs`, so the embedding takes
the fetched body directly.  JSON decoding is a parameter `parse`;
`parse body = none` models a body that does not decode as the expected
shape, in which case Go's `json.Unmarshal` leaves the zero value
(`numFound = 0`, no docs). -/

/-- The `"response"` portion of a Solr result: `numFound` and the page
of documents. -/
structure Response where
  n : Int
  docs : List Doc
  deriving Repr, DecidableEq

/-- Top-level Solr search result. -/
structure SearchRes where
  res : Response
  deriving Repr, DecidableEq

/-- The URL-selection loop of `SearchURLs`: the download URL of the last
access URL containing `"HTTPServer"` is copied into the doc, taking the
part before the first `"|"`. -/
def setHTTPURL (d : Doc) : Doc :=
  d.urls.foldl
    (fun acc u =>
      if (u.splitOn "HTTPServer").length > 1 then
        { acc with httpURL := (u.splitOn "|").headD "" }
      else acc)
    d

/-- `func (s *Search) SearchURLs(skip int, limit int) ([]Doc, int)`:
on a fetch error, logs and returns no docs and `0` remaining; otherwise
decodes the body (zero value on parse failure), extracts each doc's
HTTP URL, and reports `remaining = numFound - (len(docs) + skip)`
floored at zero. -/
def SearchURLs (fetched : Except String (List Nat))
    (parse : List Nat → Option SearchRes) (skip limit : Int) :
    List Doc × Int :=
  match fetched with
  | .error _ => ([], 0)
  | .ok body =>
    let result := (parse body).getD ⟨⟨0, []⟩⟩
    let docs := result.res.docs.map setHTTPURL
    let remaining := result.res.n - ((result.res.docs.length : Int) + skip)
    (docs, if remaining < 0 then 0 else remaining)

/-! ## Facet client (`Facet`, facet.go)

The raw facet response is a flat alternating list of JSON values; the
client pairs them by remembering the last string seen (`prev`, zero
value `""`) and writing each numeric entry under it. -/

/-- A decoded JSON array element of `facet_counts.facet_fields.<field>`:
a string (a facet value), a number (a count), or anything else. -/
inductive JSONVal where
  | str (s : String)
  | num (c : Int)
  | other
  deriving Repr, DecidableEq

/-- One iteration of the pairing loop in `Facet`: a string updates
`prev`, a number writes `valueCounts[prev] = count`, anything else is
skipped. -/
def facetStep (st : String × List (String × Int)) (v : JSONVal) :
    String × List (String × Int) :=
  match v with
  | .str k => (k, st.2)
  | .num c => (st.1, insertA st.2 st.1 c)
  | .other => st

/-- The pairing loop of `Facet` over the flat facet list, starting from
`prev = ""` and an empty map. -/
def facetPairs (vs : List JSONVal) : List (String × Int) :=
  (vs.foldl facetStep ("", [])).2

/-- Top-level Solr facet result: `facet_counts.facet_fields`. -/
structure FacetRes where
  fields : List (String × List JSONVal)
  deriving Repr, DecidableEq

/-- `func Facet(s *Search, field string) map[string]int`: on a fetch
error, logs and returns the nil map (no entries); otherwise decodes the
body (zero value on parse failure; a missing field gives the nil slice)
and pairs the flat list into a mapping. -/
def Facet (fetched : Except String (List Nat))
    (parse : List Nat → Option FacetRes) (field : String) :
    List (String × Int) :=
  match fetched with
  | .error _ => []
  | .ok body =>
    let result := (parse body).getD ⟨[]⟩
    facetPairs ((lookupA result.fields field).getD [])

/-! ## Criteria canonicalization (`config.Init`, cmd/sproket/main.go)

After loading the JSON config, `Init` hard-sets the special fields on
`args.search.Fields`: `replica` and `data_node` unconditionally, and
`retracted` / `latest` only when the `-unsafe` CLI flag (here
`rawMode`) is not given. -/

/-- The field-forcing portion of `func (args *config) Init() error`. -/
def initFields (rawMode : Bool) (fields : List (String × String)) :
    List (String × String) :=
  let f := insertA fields "replica" "*"
  let f := insertA f "data_node" "*"
  if !rawMode then
    insertA (insertA f "retracted" "false") "latest" "true"
  else f

/-! ## Replica resolver (`getBySearch`, cmd/sproket/main.go)

The resolver's state `allDocs` is a map from `instance_id` to a map
from `data_node` to `Doc`.  The originals pass inserts one fresh
singleton per doc; the replica pass merges a doc only when its
`instance_id` is already a key; the selection pass emits one doc per
logical file, preferring the first priority node present. -/

/-- The originals-pass loop body applied to a page of docs:
`allDocs[doc.InstanceID] = make(...); allDocs[doc.InstanceID][doc.DataNode] = doc`. -/
def collectOriginals (docs : List Doc) :
    List (String × List (String × Doc)) :=
  docs.foldl (fun m doc => insertA m doc.instanceID [(doc.dataNode, doc)]) []

/-- The replica-pass loop body for one doc:
`_, in := allDocs[doc.InstanceID]; if in { allDocs[doc.InstanceID][doc.DataNode] = doc }`. -/
def mergeStep (m : List (String × List (String × Doc))) (doc : Doc) :
    List (String × List (String × Doc)) :=
  match lookupA m doc.instanceID with
  | some nm => insertA m doc.instanceID (insertA nm doc.dataNode doc)
  | none => m

/-- The replica pass applied to a page of docs. -/
def mergeReplicas (m : List (String × List (String × Doc)))
    (docs : List Doc) : List (String × List (String × Doc)) :=
  docs.foldl mergeStep m

/-- The per-logical-file selection loop: walk the priority list in
order; the first priority node with an entry in the data-node map is
selected as preferred (`true`); otherwise the first map entry is
selected (`false`); an empty map selects nothing. -/
def selectJob (priority : List String) (nm : List (String × Doc)) :
    Option (Doc × Bool) :=
  match priority.findSome? (fun p => lookupA nm p) with
  | some doc => some (doc, true)
  | none => nm.head?.map (fun kv => (kv.2, false))

/-- The full resolution with replica preference active: collect
originals, merge true replicas, then select one download per logical
file. -/
def resolveJobs (origs reps : List Doc) (priority : List String) :
    List Doc :=
  (mergeReplicas (collectOriginals origs) reps).filterMap
    (fun kv => (selectJob priority kv.2).map (fun db => db.1))

/-! ## Download worker (`getHasher` / `check` / `getData`,
cmd/sproket/main.go)

The filesystem is a partial map from path to content bytes, and the
hash functions are an oracle from algorithm tag and content to hex
digest — both external collaborators.  A Go panic while evaluating the
checksum accessors is modelled as `none`. -/

/-- `func getHasher(dest, remoteSum, remoteSumType string) (hash.Hash, error)`:
errors on a missing checksum or algorithm tag and on an unrecognized
algorithm; otherwise yields the selected algorithm tag. -/
def getHasher (dest remoteSum remoteSumType : String) :
    Except String String :=
  if remoteSumType = "" ∨ remoteSum = "" then
    .error ("could not retrieve checksum for " ++ dest)
  else if remoteSumType = "MD5" then .ok "MD5"
  else if remoteSumType = "SHA256" then .ok "SHA256"
  else .error ("unrecognized checksum_type: " ++ remoteSumType)

/-- `func check(dest, remoteSum, remoteSumType string) error`: select
the hasher, open and hash the file at `dest`, and compare against the
remote checksum. -/
def check (hash : String → List Nat → String)
    (fs : String → Option (List Nat))
    (dest remoteSum remoteSumType : String) : Except String Unit :=
  match getHasher dest remoteSum remoteSumType with
  | .error e => .error e
  | .ok alg =>
    match fs dest with
    | none => .error ("open " ++ dest ++ ": no such file or directory")
    | some content =>
      if hash alg content = remoteSum then .ok ()
      else .error ("checksum verification failure for " ++ dest)

/-- What the download branch of `getData` does with one job. -/
inductive WorkerOutcome where
  /-- The final destination exists and verifies: the job is dropped
  before any network access (`continue`). -/
  | skipVerified
  /-- The worker proceeds past the skip test towards a fetch of the
  doc's URL. -/
  | downloadAttempted
  deriving Repr, DecidableEq

/-- The skip test of the download branch of `getData` for one doc:
stat the final destination (`outDir/<instance_id>`); if it exists and
`check` passes, drop the job; otherwise fall through to the download.
`none` models a panic in a checksum accessor. -/
def getDataStep (hash : String → List Nat → String)
    (fs : String → Option (List Nat)) (outDir : String) (doc : Doc) :
    Option WorkerOutcome :=
  let finalDestName := outDir ++ "/" ++ doc.instanceID
  match fs finalDestName with
  | some _ =>
    match doc.GetSum, doc.GetSumType with
    | some s, some st =>
      match check hash fs finalDestName s st with
      | .ok _ => some .skipVerified
      | .error _ => some .downloadAttempted
    | _, _ => none
  | none =>
    match doc.GetSum, doc.GetSumType with
    | some _, some _ => some .downloadAttempted
    | _, _ => none

end Sproket

namespace Sproket

/-- Example doc with one checksum value and one algorithm tag. -/
def docOneOne : Doc :=
  { urls := [], instanceID := "i1", dataNode := "n1"
    sum := ["abc"], sumType := ["MD5"], httpURL := "" }

/-- Example doc with one checksum value and two algorithm tags. -/
def docOneTwo : Doc :=
  { urls := [], instanceID := "i2", dataNode := "n1"
    sum := ["abc"], sumType := ["MD5", "SHA256"], httpURL := "" }

/-- Example doc with one checksum value and no algorithm tag. -/
def docOneZero : Doc :=
  { urls := [], instanceID := "i3", dataNode := "n1"
    sum := ["abc"], sumType := [], httpURL := "" }

/-! ## Lemmas about the Go-map embedding -/

theorem lookupA_insertA {α : Type} (m : List (String × α)) (k k' : String)
    (v : α) :
    lookupA (insertA m k v) k' = if k' = k then some v else lookupA m k' := by
  induction m with
  | nil =>
    by_cases h : k' = k
    · subst h; simp [insertA, lookupA]
    · have hk : ¬(k = k') := fun h' => h h'.symm
      simp [insertA, lookupA, h, hk]
  | cons kv rest ih =>
    simp only [insertA]
    by_cases h1 : kv.1 = k
    · rw [if_pos h1]
      by_cases h2 : k' = k
      · subst h2; simp [lookupA]
      · have hk : ¬(k = k') := fun h' => h2 h'.symm
        have hkv : ¬(kv.1 = k') := fun h' => h2 (h1.symm.trans h').symm
        simp [lookupA, hk, h2, hkv]
    · rw [if_neg h1]
      by_cases h2 : kv.1 = k'
      · have hk : ¬(k' = k) := fun h' => h1 (h2.trans h')
        simp [lookupA, h2, hk]
      · simp [lookupA, h2, ih]

theorem mem_keys_iff_lookupA {α : Type} (m : List (String × α))
    (k : String) :
    k ∈ m.map Prod.fst ↔ (lookupA m k).isSome := by
  induction m with
  | nil => simp [lookupA]
  | cons kv rest ih =>
    by_cases h : kv.1 = k
    · simp [lookupA, h]
    · have hk : ¬(k = kv.1) := fun h' => h h'.symm
      simp [lookupA, h, hk, ih]

theorem keys_insertA {α : Type} (m : List (String × α)) (k : String)
    (v : α) :
    (insertA m k v).map Prod.fst =
      if k ∈ m.map Prod.fst then m.map Prod.fst
      else m.map Prod.fst ++ [k] := by
  induction m with
  | nil => simp [insertA]
  | cons kv rest ih =>
    by_cases h : kv.1 = k
    · simp [insertA, h]
    · have hk : ¬(k = kv.1) := fun h' => h h'.symm
      by_cases h2 : k ∈ rest.map Prod.fst
      · have hc : k ∈ (kv :: rest).map Prod.fst := by simp [h2]
        rw [if_pos hc]
        simp only [insertA, if_neg h, List.map_cons, ih, if_pos h2]
      · have hc : k ∉ (kv :: rest).map Prod.fst := by simp [h2, hk]
        rw [if_neg hc]
        simp only [insertA, if_neg h, List.map_cons, ih, if_neg h2,
          List.cons_append]

theorem nodup_keys_insertA {α : Type} {m : List (String × α)}
    (hm : (m.map Prod.fst).Nodup) (k : String) (v : α) :
    ((insertA m k v).map Prod.fst).Nodup := by
  rw [keys_insertA]
  by_cases h : k ∈ m.map Prod.fst
  · simpa [h] using hm
  · simp [h, List.nodup_append, hm]

theorem mem_insertA {α : Type} {m : List (String × α)} {k : String}
    {v : α} {kv : String × α} (hkv : kv ∈ insertA m k v) :
    kv ∈ m ∨ kv = (k, v) := by
  induction m with
  | nil => simp [insertA] at hkv; simp [hkv]
  | cons kv' rest ih =>
    by_cases h : kv'.1 = k
    · simp [insertA, h] at hkv
      rcases hkv with h1 | h1
      · right; simp [h1]
      · left; simp [h1]
    · simp [insertA, h] at hkv
      rcases hkv with h1 | h1
      · left; simp [h1]
      · rcases ih h1 with h2 | h2
        · left; simp [h2]
        · right; exact h2

/-! ## C4 — criteria canonicalization -/

/-- C4 (amended): with the unsafe option unset (the default), `Init`
forces `retracted = "false"` and `latest = "true"` onto the criteria
regardless of any field values the caller supplied. -/
theorem initFields_forces_retracted_latest
    (fields : List (String × String)) :
    lookupA (initFields false fields) "retracted" = some "false" ∧
      lookupA (initFields false fields) "latest" = some "true" := by
  simp [initFields, lookupA_insertA]

/-- C4 (counterexample): the forcing is *not* unconditional — with the
unsafe option set, a caller-supplied `retracted = "true"` survives
`Init` and `latest` is not set at all. -/
theorem initFields_rawMode_counterexample :
    ¬ (∀ (rawMode : Bool) (fields : List (String × String)),
        lookupA (initFields rawMode fields) "retracted" = some "false" ∧
          lookupA (initFields rawMode fields) "latest" = some "true") := by
  intro h
  have := h true [("retracted", "true")]
  simp [initFields, insertA, lookupA] at this

/-! ## C7 — query builder -/

/-- Auxiliary: the accumulation loop of `buildQ` produces exactly the
map of clause strings. -/
theorem buildQ_foldl_eq_map (fields : List (String × String))
    (acc : List String) :
    fields.foldl (fun acc kv => acc ++ [kv.1 ++ ":(" ++ kv.2 ++ ")"]) acc =
      acc ++ fields.map (fun kv => kv.1 ++ ":(" ++ kv.2 ++ ")") := by
  induction fields generalizing acc with
  | nil => simp
  | cons kv rest ih => simp [ih]

/-- C7: an empty field mapping yields the match-everything query `*:*`;
a non-empty mapping yields the `" AND "`-join of exactly one
`field:(value)` clause per field, with each value preserved verbatim. -/
theorem buildQ_spec (fields : List (String × String)) :
    (fields = [] → buildQ fields = "*:*") ∧
      (fields ≠ [] →
        buildQ fields =
          String.intercalate " AND "
            (fields.map (fun kv => kv.1 ++ ":(" ++ kv.2 ++ ")"))) := by
  constructor
  · intro h; subst h; simp [buildQ]
  · intro h
    simp [buildQ, List.length_eq_zero, h, buildQ_foldl_eq_map]

/-- C7 (witness): a concrete mapping with caller-supplied OR syntax is
emitted as a single clause with the value expression untouched. -/
theorem buildQ_spec_witness :
    buildQ [("variable", "tas OR pr")] = "variable:(tas OR pr)" := by
  have h := (buildQ_spec [("variable", "tas OR pr")]).2 (by simp)
  simpa using h

/-! ## C8 / C10 — checksum accessors -/

/-- C8 (counterexample): a doc with exactly one checksum value but two
algorithm tags is still reported as having a verifiable checksum — both
accessors return non-empty strings, contradicting "any other
multiplicity yields no verifiable checksum". -/
theorem checksum_multiplicity_counterexample :
    docOneTwo.GetSum = some "abc" ∧ docOneTwo.GetSumType = some "MD5" ∧
      ("abc" : String) ≠ "" ∧ ("MD5" : String) ≠ "" := by
  refine ⟨rfl, rfl, by decide, by decide⟩

/-- C8 (amended): presence of a checksum is governed by the checksum
*value* list alone: if its length differs from one, both accessors
return `""`; if it is exactly one value, `GetSum` returns that value
and `GetSumType` returns the first algorithm tag whatever the tag
multiplicity — faulting (modelled `none`) when the tag list is empty. -/
theorem checksum_accessors_spec (d : Doc) :
    (d.sum.length ≠ 1 → d.GetSum = some "" ∧ d.GetSumType = some "") ∧
      (∀ s, d.sum = [s] → d.GetSum = some s ∧ d.GetSumType = d.sumType[0]?) := by
  constructor
  · intro h
    simp [Doc.GetSum, Doc.GetSumType, h]
  · intro s hs
    simp [Doc.GetSum, Doc.GetSumType, hs]

/-- C8 (witness): the amended description evaluated at concrete docs —
one value with two tags gives `("abc", "MD5")`, one value with no tags
gives `GetSum = "abc"` and a faulting `GetSumType`, and zero values
give `("", "")`. -/
theorem checksum_accessors_witness :
    (docOneTwo.GetSum = some "abc" ∧ docOneTwo.GetSumType = some "MD5") ∧
      (docOneZero.GetSum = some "abc" ∧ docOneZero.GetSumType = none) ∧
      (({ docOneZero with sum := [] } : Doc).GetSum = some "" ∧
        ({ docOneZero with sum := [] } : Doc).GetSumType = some "") := by
  refine ⟨?_, ?_, ?_⟩
  · have h := (checksum_accessors_spec docOneTwo).2 "abc" rfl
    simpa [docOneTwo] using h
  · have h := (checksum_accessors_spec docOneZero).2 "abc" rfl
    simpa [docOneZero] using h
  · have h := (checksum_accessors_spec { docOneZero with sum := [] }).1
      (by simp [docOneZero])
    simpa using h

/-! ## C6 — paging exactness -/

/-- C6: for every decoded response with `numFound = n`, offset `skip`
and document page `ds`, `SearchURLs` returns the page (with HTTP URLs
extracted) and `remaining = n - (skip + len(ds))` floored at zero. -/
theorem searchURLs_remaining_exact (n skip limit : Int) (ds : List Doc)
    (body : List Nat) (parse : List Nat → Option SearchRes)
    (h : parse body = some ⟨⟨n, ds⟩⟩) :
    SearchURLs (.ok body) parse skip limit =
      (ds.map setHTTPURL, max 0 (n - (skip + (ds.length : Int)))) := by
  simp only [SearchURLs, h, Option.getD_some]
  refine Prod.ext rfl ?_
  simp only
  omega

/-- C6 (witness): a simulated total of 130 matches paged with size 50
at offsets 0, 50, 100 yields 50, 50, 30 documents with remaining 80,
30, 0. -/
theorem searchURLs_remaining_exact_witness :
    ((SearchURLs (.ok [])
        (fun _ => some ⟨⟨130, List.replicate 50 docOneOne⟩⟩) 0 50).1.length = 50 ∧
      (SearchURLs (.ok [])
        (fun _ => some ⟨⟨130, List.replicate 50 docOneOne⟩⟩) 0 50).2 = 80) ∧
    ((SearchURLs (.ok [])
        (fun _ => some ⟨⟨130, List.replicate 50 docOneOne⟩⟩) 50 50).1.length = 50 ∧
      (SearchURLs (.ok [])
        (fun _ => some ⟨⟨130, List.replicate 50 docOneOne⟩⟩) 50 50).2 = 30) ∧
    ((SearchURLs (.ok [])
        (fun _ => some ⟨⟨130, List.replicate 30 docOneOne⟩⟩) 100 50).1.length = 30 ∧
      (SearchURLs (.ok [])
        (fun _ => some ⟨⟨130, List.replicate 30 docOneOne⟩⟩) 100 50).2 = 0) := by
  refine ⟨?_, ?_, ?_⟩
  · rw [searchURLs_remaining_exact 130 0 50 (List.replicate 50 docOneOne)
      [] _ rfl]
    simp
  · rw [searchURLs_remaining_exact 130 50 50 (List.replicate 50 docOneOne)
      [] _ rfl]
    simp
  · rw [searchURLs_remaining_exact 130 100 50 (List.replicate 30 docOneOne)
      [] _ rfl]
    simp

/-! ## C5 — index-client error handling -/

/-- C5: on a transport failure or a non-success HTTP status, `Get`
propagates an error and both `SearchURLs` and `Facet` produce no
documents; a body that does not decode as the expected JSON shape
degrades to an empty result (no docs, zero remaining, empty mapping)
without crashing. -/
theorem client_error_handling
    (msg stext field : String) (status : Nat) (body pb fb : List Nat)
    (clen skip limit : Int)
    (parse : List Nat → Option SearchRes)
    (fparse : List Nat → Option FacetRes)
    (hstatus : status ≠ 200)
    (hparse : parse pb = none) (hfparse : fparse fb = none)
    (hskip : 0 ≤ skip) :
    Get (.transportError msg) = .error msg ∧
    SearchURLs (Get (.transportError msg)) parse skip limit = ([], 0) ∧
    Facet (Get (.transportError msg)) fparse field = [] ∧
    Get (.response status stext body clen) = .error stext ∧
    SearchURLs (Get (.response status stext body clen)) parse skip limit
      = ([], 0) ∧
    Facet (Get (.response status stext body clen)) fparse field = [] ∧
    SearchURLs (.ok pb) parse skip limit = ([], 0) ∧
    Facet (.ok fb) fparse field = [] := by
  have hget : Get (.response status stext body clen) = .error stext := by
    simp [Get, hstatus]
  refine ⟨rfl, rfl, rfl, hget, ?_, ?_, ?_, ?_⟩
  · rw [hget]; rfl
  · rw [hget]; rfl
  · simp only [SearchURLs, hparse, Option.getD_none]
    refine Prod.ext rfl ?_
    simp only [List.length_nil]
    omega
  · simp [Facet, hfparse, facetPairs, lookupA]

/-- C5 (witness): the error-handling behaviour at a concrete transport
error, a concrete 404 response, and a concrete non-decoding body. -/
theorem client_error_handling_witness :
    Get (.transportError "connection refused") = .error "connection refused" ∧
    SearchURLs (Get (.transportError "connection refused")) (fun _ => none)
      0 10 = ([], 0) ∧
    Facet (Get (.transportError "connection refused")) (fun _ => none)
      "data_node" = [] ∧
    Get (.response 404 "404 Not Found" [1] (-1)) = .error "404 Not Found" ∧
    SearchURLs (Get (.response 404 "404 Not Found" [1] (-1)))
      (fun _ => none) 0 10 = ([], 0) ∧
    Facet (Get (.response 404 "404 Not Found" [1] (-1))) (fun _ => none)
      "data_node" = [] ∧
    SearchURLs (.ok [2]) (fun _ => none) 0 10 = ([], 0) ∧
    Facet (.ok [3]) (fun _ => none) "data_node" = [] :=
  client_error_handling "connection refused" "404 Not Found" "data_node"
    404 [1] [2] [3] (-1) 0 10 (fun _ => none) (fun _ => none)
    (by decide) rfl rfl (by decide)

/-! ## C3 — skip test of the download worker -/

/-- C3: every job whose final destination `outDir/<instance_id>`
already exists and passes `check` against the job's checksum descriptor
is dropped by the worker without a fetch; hence over a list of jobs
that are all present and verified, zero fetches are performed. -/
theorem skip_verified_no_fetch
    (hash : String → List Nat → String) (fs : String → Option (List Nat))
    (outDir : String) (docs : List Doc)
    (h : ∀ doc ∈ docs, ∃ s st,
        doc.GetSum = some s ∧ doc.GetSumType = some st ∧
        (fs (outDir ++ "/" ++ doc.instanceID)).isSome ∧
        check hash fs (outDir ++ "/" ++ doc.instanceID) s st = .ok ()) :
    docs.map (getDataStep hash fs outDir) =
      docs.map (fun _ => some WorkerOutcome.skipVerified) := by
  induction docs with
  | nil => rfl
  | cons d rest ih =>
    obtain ⟨s, st, hs, hst, hfs, hchk⟩ := h d (by simp)
    obtain ⟨c, hc⟩ := Option.isSome_iff_exists.mp hfs
    simp only [List.map_cons]
    rw [ih (fun d' hd' => h d' (by simp [hd']))]
    simp [getDataStep, hc, hs, hst, hchk]

/-- C3 (witness): a concrete job whose destination holds verified
content is skipped. -/
theorem skip_verified_no_fetch_witness :
    [docOneOne].map (getDataStep (fun _ _ => "abc")
        (fun p => if p = "out/i1" then some [1] else none) "out") =
      [docOneOne].map (fun _ => some WorkerOutcome.skipVerified) := by
  apply skip_verified_no_fetch
  intro doc hdoc
  simp only [List.mem_singleton] at hdoc
  subst hdoc
  exact ⟨"abc", "MD5", rfl, rfl, by decide, rfl⟩

/-! ## C2 — per-logical-file selection -/

theorem findSome?_lookupA_none {α : Type} (priority : List String)
    (m : List (String × α)) (h : ∀ q ∈ priority, lookupA m q = none) :
    priority.findSome? (fun q => lookupA m q) = none := by
  induction priority with
  | nil => rfl
  | cons q rest ih =>
    have hq := h q (by simp)
    simp only [List.findSome?_cons, hq]
    exact ih (fun q' hq' => h q' (by simp [hq']))

theorem findSome?_lookupA_first {α : Type} (pre rest : List String)
    (p : String) (m : List (String × α)) (v : α)
    (hpre : ∀ q ∈ pre, lookupA m q = none) (hp : lookupA m p = some v) :
    (pre ++ p :: rest).findSome? (fun q => lookupA m q) = some v := by
  induction pre with
  | nil => simp [List.findSome?_cons, hp]
  | cons q pre' ih =>
    have hq := hpre q (by simp)
    simp only [List.cons_append, List.findSome?_cons, hq]
    exact ih (fun q' hq' => hpre q' (by simp [hq']))

/-- C2: the selection loop walks the priority list in order and selects
the doc of the first priority node with an entry in the logical file's
mapping, marked preferred; with no priority match it selects the first
entry of the mapping, so every non-empty mapping yields exactly one
job; in particular priority `[B, A]` over a mapping holding both `A`
and `B` selects node B's doc. -/
theorem selectJob_priority_spec (priority pre rest : List String)
    (p : String) (m : List (String × Doc)) (d da db : Doc) :
    ((∀ q ∈ pre, lookupA m q = none) → lookupA m p = some d →
      selectJob (pre ++ p :: rest) m = some (d, true)) ∧
    ((∀ q ∈ priority, lookupA m q = none) → m ≠ [] →
      ∃ kv ∈ m, selectJob priority m = some (kv.2, false)) ∧
    (m ≠ [] → (selectJob priority m).isSome) ∧
    selectJob ["B", "A"] [("A", da), ("B", db)] = some (db, true) := by
  refine ⟨?_, ?_, ?_, ?_⟩
  · intro hpre hp
    simp [selectJob, findSome?_lookupA_first pre rest p m d hpre hp]
  · intro hnone hne
    match m with
    | kv :: tl =>
      exact ⟨kv, by simp,
        by simp [selectJob, findSome?_lookupA_none _ _ hnone]⟩
  · intro hne
    unfold selectJob
    cases hf : priority.findSome? (fun q => lookupA m q) with
    | some doc => simp
    | none =>
      match m with
      | kv :: tl => simp
  · have hAB : ¬(("A" : String) = "B") := by decide
    have hBB : (("B" : String) = "B") := rfl
    simp [selectJob, List.findSome?_cons, lookupA, hAB, hBB]

/-- C2 (witness): with priority `[C, B, A]`, a mapping holding `A` and
`B` but not `C` selects node B's doc as preferred; with priority `[C]`
only, the same mapping still yields exactly one (non-preferred) job. -/
theorem selectJob_priority_spec_witness :
    selectJob ["C", "B", "A"] [("A", docOneOne), ("B", docOneTwo)] =
      some (docOneTwo, true) ∧
    (∃ kv ∈ [("A", docOneOne), ("B", docOneTwo)],
      selectJob ["C"] [("A", docOneOne), ("B", docOneTwo)] =
        some (kv.2, false)) ∧
    (selectJob ["C"] [("A", docOneOne), ("B", docOneTwo)]).isSome := by
  refine ⟨?_, ?_, ?_⟩
  · exact (selectJob_priority_spec ["C"] ["C"] ["A"] "B"
      [("A", docOneOne), ("B", docOneTwo)] docOneTwo docOneOne
      docOneOne).1 (by decide) (by decide)
  · exact (selectJob_priority_spec ["C"] ["C"] ["A"] "B"
      [("A", docOneOne), ("B", docOneTwo)] docOneTwo docOneOne
      docOneOne).2.1 (by decide) (by decide)
  · exact (selectJob_priority_spec ["C"] ["C"] ["A"] "B"
      [("A", docOneOne), ("B", docOneTwo)] docOneTwo docOneOne
      docOneOne).2.2.1 (by decide)

/-! ## C9 — facet pairing -/

/-- A well-formed flat facet response: value then count, alternating. -/
def flattenFacet (pairs : List (String × Int)) : List JSONVal :=
  pairs.foldr (fun kv acc => .str kv.1 :: .num kv.2 :: acc) []

theorem insertA_of_lookupA_none {α : Type} (m : List (String × α))
    (k : String) (v : α) (h : lookupA m k = none) :
    insertA m k v = m ++ [(k, v)] := by
  induction m with
  | nil => rfl
  | cons kv rest ih =>
    by_cases hk : kv.1 = k
    · simp [lookupA, hk] at h
    · simp only [lookupA, if_neg hk] at h
      simp [insertA, hk, ih h]

theorem lookupA_append {α : Type} (l1 l2 : List (String × α))
    (k : String) :
    lookupA (l1 ++ l2) k =
      match lookupA l1 k with
      | some v => some v
      | none => lookupA l2 k := by
  induction l1 with
  | nil => simp [lookupA]
  | cons kv rest ih =>
    by_cases hk : kv.1 = k
    · simp [lookupA, hk]
    · simp [lookupA, hk, ih]

theorem facet_foldl_flatten (pairs : List (String × Int)) (p : String)
    (acc : List (String × Int)) :
    ((flattenFacet pairs).foldl facetStep (p, acc)).2 =
      pairs.foldl (fun m kv => insertA m kv.1 kv.2) acc := by
  induction pairs generalizing p acc with
  | nil => rfl
  | cons kv rest ih =>
    show ((flattenFacet rest).foldl facetStep
      (facetStep (facetStep (p, acc) (.str kv.1)) (.num kv.2))).2 = _
    simp only [facetStep]
    exact ih kv.1 (insertA acc kv.1 kv.2)

theorem foldl_insertA_fresh (pairs : List (String × Int))
    (acc : List (String × Int))
    (hfresh : ∀ kv ∈ pairs, lookupA acc kv.1 = none)
    (hnd : (pairs.map Prod.fst).Nodup) :
    pairs.foldl (fun m kv => insertA m kv.1 kv.2) acc = acc ++ pairs := by
  induction pairs generalizing acc with
  | nil => simp
  | cons kv rest ih =>
    have hnd' : (kv.1 :: rest.map Prod.fst).Nodup := by simpa using hnd
    have h1 : lookupA acc kv.1 = none := hfresh kv (by simp)
    rw [List.foldl_cons, insertA_of_lookupA_none _ _ _ h1,
      ih (acc ++ [(kv.1, kv.2)]) ?_ hnd'.of_cons]
    · simp
    · intro kv' hkv'
      rw [lookupA_append]
      have hnotmem : kv.1 ∉ rest.map Prod.fst := (List.nodup_cons.mp hnd').1
      have hne : ¬(kv.1 = kv'.1) :=
        fun he => hnotmem (he ▸ List.mem_map_of_mem Prod.fst hkv')
      simp [hfresh kv' (by simp [hkv']), lookupA, hne]

/-- C9 (counterexample): a count with no preceding value is *not*
dropped — it is recorded under the zero-valued `prev`, producing the
partial entry `("", 3)`. -/
theorem facetPairs_orphan_count_counterexample :
    facetPairs [JSONVal.num 3] ≠ [] ∧
      facetPairs [JSONVal.num 3] = [("", 3)] := by
  refine ⟨by decide, rfl⟩

/-- C9 (amended): the client pairs the flat alternating value/count
list by remembering the last value string seen (initially `""`) and
writing each count under it: a well-formed alternating list with
distinct values is paired exactly into the mapping, and a trailing
value with no following count is dropped; but a count with no
preceding value is recorded under the empty-string key rather than
dropped. -/
theorem facetPairs_spec (pairs : List (String × Int)) (v : String)
    (hnd : (pairs.map Prod.fst).Nodup) :
    facetPairs (flattenFacet pairs) = pairs ∧
      facetPairs (flattenFacet pairs ++ [JSONVal.str v]) = pairs := by
  have h2 : ((flattenFacet pairs).foldl facetStep ("", [])).2 = pairs := by
    rw [facet_foldl_flatten]
    simpa using foldl_insertA_fresh pairs []
      (fun kv _ => by simp [lookupA]) hnd
  refine ⟨h2, ?_⟩
  show ((flattenFacet pairs ++ [JSONVal.str v]).foldl facetStep ("", [])).2 = pairs
  rw [List.foldl_append]
  simp only [List.foldl_cons, List.foldl_nil, facetStep]
  exact h2

/-- C9 (witness): a concrete well-formed facet list is paired exactly,
its trailing-value variant identically. -/
theorem facetPairs_spec_witness :
    facetPairs (flattenFacet [("n1", 5), ("n2", 7)]) = [("n1", 5), ("n2", 7)] ∧
      facetPairs (flattenFacet [("n1", 5), ("n2", 7)] ++ [JSONVal.str "n3"]) =
        [("n1", 5), ("n2", 7)] :=
  facetPairs_spec [("n1", 5), ("n2", 7)] "n3" (by decide)

/-! ## C1 — replica merge and deduplication -/

theorem keys_collect_aux (docs : List Doc)
    (m0 : List (String × List (String × Doc))) (iid : String) :
    (lookupA (docs.foldl
        (fun m doc => insertA m doc.instanceID [(doc.dataNode, doc)]) m0)
      iid).isSome
      ↔ iid ∈ docs.map Doc.instanceID ∨ (lookupA m0 iid).isSome := by
  induction docs generalizing m0 with
  | nil => simp
  | cons d rest ih =>
    rw [List.foldl_cons, ih]
    by_cases h : iid = d.instanceID
    · simp [lookupA_insertA, h]
    · simp [lookupA_insertA, h]

theorem keys_collectOriginals (docs : List Doc) (iid : String) :
    (lookupA (collectOriginals docs) iid).isSome ↔
      iid ∈ docs.map Doc.instanceID := by
  unfold collectOriginals
  rw [keys_collect_aux]
  simp [lookupA]

theorem mergeStep_keys (m : List (String × List (String × Doc)))
    (d : Doc) (iid : String) :
    (lookupA (mergeStep m d) iid).isSome ↔ (lookupA m iid).isSome := by
  unfold mergeStep
  cases hx : lookupA m d.instanceID with
  | none => simp
  | some nm =>
    rw [lookupA_insertA]
    by_cases h : iid = d.instanceID
    · simp [h, hx]
    · simp [h]

theorem mergeReplicas_keys (reps : List Doc)
    (m : List (String × List (String × Doc))) (iid : String) :
    (lookupA (mergeReplicas m reps) iid).isSome ↔
      (lookupA m iid).isSome := by
  induction reps generalizing m with
  | nil => exact Iff.rfl
  | cons d rest ih =>
    unfold mergeReplicas at *
    rw [List.foldl_cons]
    exact (ih (mergeStep m d)).trans (mergeStep_keys m d iid)

theorem nodup_keys_collect_aux (docs : List Doc)
    (m0 : List (String × List (String × Doc)))
    (h : (m0.map Prod.fst).Nodup) :
    ((docs.foldl
        (fun m doc => insertA m doc.instanceID [(doc.dataNode, doc)])
        m0).map Prod.fst).Nodup := by
  induction docs generalizing m0 with
  | nil => exact h
  | cons d rest ih =>
    rw [List.foldl_cons]
    exact ih _ (nodup_keys_insertA h _ _)

theorem nodup_keys_collectOriginals (docs : List Doc) :
    ((collectOriginals docs).map Prod.fst).Nodup :=
  nodup_keys_collect_aux docs [] (by simp)

theorem nodup_keys_mergeStep {m : List (String × List (String × Doc))}
    (h : (m.map Prod.fst).Nodup) (d : Doc) :
    ((mergeStep m d).map Prod.fst).Nodup := by
  unfold mergeStep
  cases hx : lookupA m d.instanceID with
  | none => exact h
  | some nm => exact nodup_keys_insertA h _ _

theorem nodup_keys_mergeReplicas (reps : List Doc)
    (m : List (String × List (String × Doc)))
    (h : (m.map Prod.fst).Nodup) :
    ((mergeReplicas m reps).map Prod.fst).Nodup := by
  induction reps generalizing m with
  | nil => exact h
  | cons d rest ih =>
    unfold mergeReplicas at *
    rw [List.foldl_cons]
    exact ih _ (nodup_keys_mergeStep h d)

/-- Invariant of the resolver state: every doc stored under
instance id `iid` really has that instance id. -/
def GoodMap (m : List (String × List (String × Doc))) : Prop :=
  ∀ kv ∈ m, ∀ nd ∈ kv.2, nd.2.instanceID = kv.1

theorem lookupA_mem {α : Type} {m : List (String × α)} {k : String}
    {v : α} (h : lookupA m k = some v) : (k, v) ∈ m := by
  induction m with
  | nil => simp [lookupA] at h
  | cons kv rest ih =>
    by_cases hk : kv.1 = k
    · simp only [lookupA, if_pos hk, Option.some.injEq] at h
      have : kv = (k, v) := by
        cases kv with
        | mk a b => simp at hk h; simp [hk, h]
      rw [← this]
      exact List.mem_cons_self _ _
    · simp only [lookupA, if_neg hk] at h
      exact List.mem_cons_of_mem _ (ih h)

theorem good_collect_aux (docs : List Doc)
    (m0 : List (String × List (String × Doc))) (h : GoodMap m0) :
    GoodMap (docs.foldl
      (fun m doc => insertA m doc.instanceID [(doc.dataNode, doc)]) m0) := by
  induction docs generalizing m0 with
  | nil => exact h
  | cons d rest ih =>
    rw [List.foldl_cons]
    refine ih _ ?_
    intro kv hkv nd hnd
    rcases mem_insertA hkv with h1 | h1
    · exact h kv h1 nd hnd
    · rw [h1] at hnd ⊢
      simp only at hnd
      simp only [List.mem_singleton] at hnd
      rw [hnd]

theorem good_collectOriginals (docs : List Doc) :
    GoodMap (collectOriginals docs) :=
  good_collect_aux docs [] (by intro kv hkv; simp at hkv)

theorem good_mergeStep {m : List (String × List (String × Doc))}
    (h : GoodMap m) (d : Doc) : GoodMap (mergeStep m d) := by
  unfold mergeStep
  cases hx : lookupA m d.instanceID with
  | none => exact h
  | some nm =>
    intro kv hkv nd hnd
    rcases mem_insertA hkv with h1 | h1
    · exact h kv h1 nd hnd
    · have hm := lookupA_mem hx
      rw [h1] at hnd ⊢
      simp only at hnd ⊢
      rcases mem_insertA hnd with h2 | h2
      · exact h _ hm nd h2
      · rw [h2]

theorem good_mergeReplicas (reps : List Doc)
    (m : List (String × List (String × Doc))) (h : GoodMap m) :
    GoodMap (mergeReplicas m reps) := by
  induction reps generalizing m with
  | nil => exact h
  | cons d rest ih =>
    unfold mergeReplicas at *
    rw [List.foldl_cons]
    exact ih _ (good_mergeStep h d)

theorem findSome?_exists {α β : Type} {f : α → Option β} {l : List α}
    {b : β} (h : l.findSome? f = some b) : ∃ a ∈ l, f a = some b := by
  induction l with
  | nil => simp at h
  | cons a rest ih =>
    rw [List.findSome?_cons] at h
    cases hf : f a with
    | some b' =>
      rw [hf] at h
      exact ⟨a, by simp, by rw [hf]; exact h⟩
    | none =>
      rw [hf] at h
      obtain ⟨a', ha', hfa'⟩ := ih h
      exact ⟨a', by simp [ha'], hfa'⟩

theorem selectJob_mem {priority : List String}
    {nm : List (String × Doc)} {res : Doc × Bool}
    (h : selectJob priority nm = some res) : ∃ nd ∈ nm, nd.2 = res.1 := by
  unfold selectJob at h
  cases hf : priority.findSome? (fun p => lookupA nm p) with
  | some doc =>
    rw [hf] at h
    simp only [Option.some.injEq] at h
    obtain ⟨p, _, hlp⟩ := findSome?_exists hf
    exact ⟨(p, doc), lookupA_mem hlp, by rw [← h]⟩
  | none =>
    rw [hf] at h
    cases nm with
    | nil => simp at h
    | cons kv tl =>
      simp only [List.head?_cons, Option.map_some', Option.some.injEq] at h
      exact ⟨kv, by simp, by rw [← h]⟩

theorem resolveJobs_sublist (m : List (String × List (String × Doc)))
    (priority : List String) (h : GoodMap m) :
    ((m.filterMap
        (fun kv => (selectJob priority kv.2).map (fun db => db.1))).map
      Doc.instanceID).Sublist (m.map Prod.fst) := by
  induction m with
  | nil => simp
  | cons kv rest ih =>
    have hrest := ih (fun kv' h' nd hnd => h kv' (List.mem_cons_of_mem _ h') nd hnd)
    cases hs : selectJob priority kv.2 with
    | none =>
      simp only [List.filterMap_cons, hs, Option.map_none', List.map_cons]
      exact hrest.cons kv.1
    | some db =>
      obtain ⟨nd, hnd, hnd2⟩ := selectJob_mem hs
      have hid : db.1.instanceID = kv.1 := by
        rw [← hnd2]
        exact h kv (List.mem_cons_self _ _) nd hnd
      simp only [List.filterMap_cons, hs, Option.map_some', List.map_cons, hid]
      exact hrest.cons₂ kv.1

/-- C1: with replica preference active, a replica-pass doc is merged
into the per-instance mapping only when its `instance_id` already has a
canonical entry from the originals pass (the key set never grows), any
other replica-pass doc is discarded (it appears nowhere in the merged
state), and the selection pass enqueues at most one doc per
`instance_id`. -/
theorem replica_merge_dedup (origs reps : List Doc)
    (priority : List String) :
    (∀ iid,
      (lookupA (mergeReplicas (collectOriginals origs) reps) iid).isSome
        ↔ iid ∈ origs.map Doc.instanceID) ∧
    ((resolveJobs origs reps priority).map Doc.instanceID).Nodup ∧
    (∀ d ∈ reps, d.instanceID ∉ origs.map Doc.instanceID →
      ∀ iid nm,
        lookupA (mergeReplicas (collectOriginals origs) reps) iid
          = some nm →
        ∀ nd ∈ nm, nd.2 ≠ d) := by
  have hkeys : ∀ iid,
      (lookupA (mergeReplicas (collectOriginals origs) reps) iid).isSome
        ↔ iid ∈ origs.map Doc.instanceID :=
    fun iid => (mergeReplicas_keys reps (collectOriginals origs) iid).trans
      (keys_collectOriginals origs iid)
  have hgood : GoodMap (mergeReplicas (collectOriginals origs) reps) :=
    good_mergeReplicas reps _ (good_collectOriginals origs)
  refine ⟨hkeys, ?_, ?_⟩
  · have hnd : ((mergeReplicas (collectOriginals origs) reps).map
        Prod.fst).Nodup :=
      nodup_keys_mergeReplicas reps _ (nodup_keys_collectOriginals origs)
    exact hnd.sublist (resolveJobs_sublist _ priority hgood)
  · intro d hd hnotin iid nm hlook nd hnd hcontra
    have h1 : nd.2.instanceID = iid :=
      hgood (iid, nm) (lookupA_mem hlook) nd hnd
    have h2 : iid ∈ origs.map Doc.instanceID :=
      (hkeys iid).mp (by simp [hlook])
    rw [hcontra] at h1
    exact hnotin (h1 ▸ h2)

/-- C1 (witness): with one original (`i1`) and one replica-pass doc of
an unrelated instance id (`i2`), the merged state's keys are exactly
the originals', the unrelated doc appears nowhere, and the job list has
no duplicate instance ids. -/
theorem replica_merge_dedup_witness :
    (∀ nd ∈ [("n1", docOneOne)], nd.2 ≠ docOneTwo) ∧
    ((lookupA (mergeReplicas (collectOriginals [docOneOne]) [docOneTwo])
        "i1").isSome ↔ "i1" ∈ [docOneOne].map Doc.instanceID) ∧
    ((resolveJobs [docOneOne] [docOneTwo] []).map Doc.instanceID).Nodup := by
  refine ⟨?_, (replica_merge_dedup [docOneOne] [docOneTwo] []).1 "i1",
    (replica_merge_dedup [docOneOne] [docOneTwo] []).2.1⟩
  exact (replica_merge_dedup [docOneOne] [docOneTwo] []).2.2 docOneTwo
    (by simp) (by decide) "i1" [("n1", docOneOne)] rfl

/-- C10: the guard of `GetSumType` tests the checksum-value list, not
the tag list, so it is *not* sufficient: on a doc with exactly one
checksum value and an empty `checksum_type` list the access
`d.SumType[0]` is out of bounds (a runtime panic, modelled `none`). -/
theorem getSumType_out_of_bounds :
    docOneZero.sum.length = 1 ∧ docOneZero.sumType = [] ∧
      docOneZero.GetSumType = none := by
  refine ⟨rfl, rfl, rfl⟩

end Sproket
